import Mathlib

/-!
Shallow embedding of the LevelDB preferences JNI layer (`jni/db_jni.cpp`)
and verification of its specified properties.

Bytes are modelled as natural numbers below 256; multi-byte scalars are
memcpy'd in the source using the host's native byte order, which we model
consistently as little-endian on both the encode and decode side (both
sides of the codec run in the same process, so only consistency matters).
Machine integer values are modelled as their bit patterns (`Nat` below
`2^width`), with two's-complement reinterpretation made explicit where the
source reads a signed `jsize`/`jint`/`jlong`.
-/

set_option autoImplicit false

namespace LevelDBJni

/-- Little-endian byte encoding of a `w`-byte machine value with bit pattern
`n`; models the `memcpy`/`leveldb::Slice((const char *)&v, sizeof(T))`
idiom used by every scalar and array setter in `db_jni.cpp`. -/
def bytesOfNat : Nat → Nat → List Nat
  | 0, _ => []
  | w + 1, n => (n % 256) :: bytesOfNat w (n / 256)

/-- Little-endian read of a byte string as an unsigned bit pattern; models
`jni::as<T>(value.data())`. -/
def natOfBytes : List Nat → Nat
  | [] => 0
  | b :: bs => b + 256 * natOfBytes bs

/-- Two's-complement reinterpretation of a `w`-byte pattern as a signed
machine integer (`jint` for `w = 4`, `jlong` for `w = 8`). -/
def signedOfBytes (w : Nat) (bs : List Nat) : Int :=
  let n := natOfBytes bs
  if 2 * n < 2 ^ (8 * w) then (n : Int) else (n : Int) - 2 ^ (8 * w)

/-- Reading a `jsize` (signed 32-bit) from the front of a buffer, as
`jni::as<jsize>(value.data() + position)` does. -/
def jsizeOfBytes (bs : List Nat) : Int :=
  signedOfBytes 4 (bs.take 4)

/-- Reads `count` consecutive `w`-byte groups from the front of `bs`;
models the element copy loop of the array getters, which computes
`length = value.size() / sizeof(T)` and then copies that many elements. -/
def chunksGo (w : Nat) : Nat → List Nat → List Nat
  | 0, _ => []
  | k + 1, bs => natOfBytes (bs.take w) :: chunksGo w k (bs.drop w)

/-- Splits a byte string into `length / w` element patterns, exactly as the
scalar-array getters of `db_jni.cpp` interpret a stored value. -/
def chunksToNats (w : Nat) (bs : List Nat) : List Nat :=
  chunksGo w (bs.length / w) bs

/-- Size constraint violated by a stored value, as reported by
`NEQ_MESSAGE` (exact size) and `MODULO_MESSAGE` (divisibility) in
`db_jni.cpp`. -/
inductive SizeConstraint where
  | sizeEq (w : Nat)
  | sizeMod (w : Nat)
deriving DecidableEq, Repr

/-- A decode validation failure as raised by `ON_VALUE_ERROR`: it carries
the requesting key and the expected-versus-actual size information. -/
structure ValueError where
  key : List Nat
  expected : SizeConstraint
  actual : Nat
deriving DecidableEq, Repr

/-- Scalar encoder: `DB_FUNC_PUT` wraps the value's `sizeof(T)` bytes in a
slice and stores them. `pat` is the value's bit pattern. -/
def dbPutScalar (w : Nat) (pat : Nat) : List Nat :=
  bytesOfNat w pat

/-- Zero-length `Unit` encoding: `dbPutVoid` stores an empty
`leveldb::Slice()`. -/
def dbPutVoid : List Nat :=
  []

/-- Scalar decoder `dbParse<T>` (db_jni.cpp lines 555-566): if the stored
size differs from `sizeof(T)` it raises a value error naming the key and
the size mismatch and returns the caller-supplied default; otherwise it
reinterprets the bytes as `T`. The result pair is (reported error,
returned value). -/
def dbParse (w : Nat) (key value : List Nat) (dflt : Nat) : Option ValueError × Nat :=
  if value.length ≠ w then
    (some ⟨key, .sizeEq w, value.length⟩, dflt)
  else
    (none, natOfBytes value)

/-- Iterator-positioned scalar getter `DB_FUNC_CAST` (db_jni.cpp lines
357-367): same size check as `dbParse`, but returns `0` on failure. -/
def dbAsScalar (w : Nat) (key value : List Nat) : Option ValueError × Nat :=
  if value.length ≠ w then
    (some ⟨key, .sizeEq w, value.length⟩, 0)
  else
    (none, natOfBytes value)

/-- Scalar-array encoder (`DB_FUNC_PUT_ARRAY` / `dbPutArray`): stores the
concatenation of the elements' byte patterns; a zero-length array stores an
empty slice, which is what the concatenation of no elements is. -/
def dbPutArray (w : Nat) (xs : List Nat) : List Nat :=
  (xs.map (bytesOfNat w)).flatten

/-- Scalar-array decoder `dbParseArray<T>` (db_jni.cpp lines 660-675): the
stored size must be a multiple of `sizeof(T)`, otherwise a value error is
raised and no array is produced; on success `size / sizeof(T)` elements are
copied out. -/
def dbParseArray (w : Nat) (key value : List Nat) : Option ValueError × Option (List Nat) :=
  if value.length % w ≠ 0 then
    (some ⟨key, .sizeMod w, value.length⟩, none)
  else
    (none, some (chunksToNats w value))

/-- Text encoder `dbPutString`: stores the UTF-16 code units (2 bytes
each); the empty string stores an empty slice. Code units are modelled as
their bit patterns (`Nat` below `2^16`). -/
def dbPutString (s : List Nat) : List Nat :=
  (s.map (bytesOfNat 2)).flatten

/-- Text decoder `dbParse<jstring>` (db_jni.cpp lines 568-584): the stored
size must be a multiple of `sizeof(jchar) = 2`, otherwise a value error is
raised and the caller default is returned; on success `size / 2` code
units are read back. -/
def dbParseString (key value : List Nat) (dflt : Option (List Nat)) :
    Option ValueError × Option (List Nat) :=
  if value.length % 2 ≠ 0 then
    (some ⟨key, .sizeMod 2, value.length⟩, dflt)
  else
    (none, some (chunksToNats 2 value))

/-- Per-string portion of the `TextArray` layout: a 4-byte `jsize` length
in code units followed by the code units, as written by the fill loop of
`dbPutStringArray` (db_jni.cpp lines 892-905). -/
def encString (s : List Nat) : List Nat :=
  bytesOfNat 4 s.length ++ (s.map (bytesOfNat 2)).flatten

/-- `TextArray` encoder `dbPutStringArray` (db_jni.cpp lines 873-921): a
4-byte string count followed by each string's length-prefixed code units.
The source precomputes the total buffer size and then fills it
sequentially; the resulting bytes are this concatenation. -/
def dbPutStringArray (ss : List (List Nat)) : List Nat :=
  bytesOfNat 4 ss.length ++ (ss.map encString).flatten

/-- The per-string read loop of `dbParseArray<jstring,jobjectArray>`
(db_jni.cpp lines 700-728), with `count` strings still expected and `bs`
the unread bytes. The source loop condition is `i < size && remaining > 0`:
if the buffer runs out exactly at an entry boundary the loop exits without
error, leaving the remaining slots of the preallocated result array null
(modelled as `none` entries). A partial length field, a negative declared
length, or insufficient payload bytes raise a value error (modelled as
`none` overall). -/
def parseStringsLoop : Nat → List Nat → Option (List (Option (List Nat)))
  | 0, _ => some []
  | count + 1, bs =>
    if bs.length = 0 then
      some (List.replicate (count + 1) none)
    else if bs.length < 4 then
      none
    else
      let len : Int := jsizeOfBytes bs
      if len < 0 then
        none
      else
        let l := len.toNat
        let rest := bs.drop 4
        if rest.length < l * 2 then
          none
        else
          match parseStringsLoop count (rest.drop (l * 2)) with
          | none => none
          | some t => some (some (chunksToNats 2 (rest.take (l * 2))) :: t)

/-- `TextArray` decoder `dbParseArray<jstring,jobjectArray>` (db_jni.cpp
lines 677-730): reads a leading 4-byte declared string count, then runs the
per-string loop. A buffer shorter than 4 bytes is a value error; a negative
declared count makes `NewObjectArray` throw, which the source surfaces as a
bare failure (both modelled as `none`). -/
def dbParseStringArray (value : List Nat) : Option (List (Option (List Nat))) :=
  if value.length < 4 then
    none
  else
    let size := jsizeOfBytes value
    if size < 0 then
      none
    else
      parseStringsLoop size.toNat (value.drop 4)

/-! ### Engine store model

The ordered key-value engine is an external collaborator of the JNI layer
(spec §6); its sources are not under `jni/`. Its snapshot is modelled as a
byte-lexicographically sorted association list of keys to values. -/

/-- A key: a byte string. -/
abbrev Key := List Nat

/-- A stored value: a byte string. -/
abbrev Val := List Nat

/-- Modelled from the spec: an engine iterator snapshot — the key/value
pairs in byte-lexicographic key order (spec §2, §6: keys sorted by
byte-lexicographic order; iteration is a point-in-time snapshot). -/
abbrev Store := List (Key × Val)

/-- Strict byte-lexicographic order on byte strings, the engine's key
comparison. -/
def bytesLt : List Nat → List Nat → Bool
  | [], [] => false
  | [], _ :: _ => true
  | _ :: _, [] => false
  | a :: as, b :: bs => if a < b then true else if b < a then false else bytesLt as bs

/-- Boolean starts-with test used by every scan:
`key.ToString().compare(0, prefix.size(), prefix) == 0`. -/
def hasPfx : List Nat → List Nat → Bool
  | [], _ => true
  | _ :: _, [] => false
  | a :: as, b :: bs => a == b && hasPfx as bs

/-- Modelled from the spec: `itr->Seek(pfx)` followed by the standard scan
loop of `db_jni.cpp` — iterate from the first key `≥ pfx` while the key
starts with `pfx`, breaking at the first key that does not (spec §6:
`seek(key)` positions at the first key at or after the seek target). -/
def seekScan (st : Store) (pfx : Key) : List (Key × Val) :=
  (st.dropWhile (fun e => bytesLt e.1 pfx)).takeWhile (fun e => hasPfx pfx e.1)

/-- Modelled from the spec: engine point lookup `db->Get` — `some` value or
not-found (spec §6). -/
def dbGet? : Store → Key → Option Val
  | [], _ => none
  | e :: st, k => if e.1 = k then some e.2 else dbGet? st k

/-- Removes every pair with the given key; the effect of an engine
`Delete`. -/
def eraseKey : Store → Key → Store
  | [], _ => []
  | e :: st, k => if e.1 = k then eraseKey st k else e :: eraseKey st k

/-- A staged batch mutation (`leveldb::WriteBatch` entry). -/
inductive BatchOp where
  | putOp (k : Key) (v : Val)
  | delOp (k : Key)
deriving DecidableEq, Repr

/-- Modelled from the spec: the effect of one staged operation on the
engine state (spec §6: `batch.put/delete`, atomic multi-op commit). -/
def applyOp (st : Store) : BatchOp → Store
  | .putOp k v => eraseKey st k ++ [(k, v)]
  | .delOp k => eraseKey st k

/-- Modelled from the spec: the effect of an atomic `db->Write(batch)` that
succeeds — all staged operations applied in order (spec §6). -/
def applyOps (st : Store) (ops : List BatchOp) : Store :=
  ops.foldl applyOp st

/-- The net effect the staged operations have on one key: `some (some v)`
if the last operation touching `k` is a put of `v`, `some none` if it is a
delete, `none` if no staged operation touches `k`. -/
def stagedEffect : List BatchOp → Key → Option (Option Val)
  | [], _ => none
  | op :: ops, k =>
    match stagedEffect ops k with
    | some r => some r
    | none =>
      match op with
      | .putOp k' v => if k' = k then some (some v) else none
      | .delOp k' => if k' = k then some none else none

/-- Result of `dbBatchPerform`: the engine state afterwards, the batch
contents afterwards, whether a recoverable error was reported, and the
returned boolean. -/
structure CommitResult where
  store' : Store
  ops' : List BatchOp
  recErr : Bool
  committed : Bool
deriving DecidableEq, Repr

/-- `dbBatchPerform` (db_jni.cpp lines 929-939). The engine's
`db->Write(WriteOptions(), batch)` is modelled from the spec as an atomic
all-or-nothing commit whose success is the `writeOk` parameter (spec §6:
atomic multi-op commit; §3: commit is all-or-nothing). The JNI code then
reports a recoverable error and leaves the batch as-is on failure, and
clears the batch only on success. -/
def dbBatchPerform (writeOk : Bool) (st : Store) (ops : List BatchOp) : CommitResult :=
  if writeOk then
    ⟨applyOps st ops, [], false, true⟩
  else
    ⟨st, ops, true, false⟩

/-! ### Prefix operations -/

/-- Result of a read-only prefix operation: the returned value, whether an
`IllegalArgumentException` argument error was raised, and whether the
engine was touched (an iterator created / any engine call made) before
returning. -/
structure OpResult (α : Type) where
  out : α
  argErr : Bool
  engineTouched : Bool
deriving DecidableEq, Repr

/-- `dbGetSizeByPrefix` (db_jni.cpp lines 176-193): empty prefix is an
argument error returning `-1` before the iterator is created; otherwise
counts keys in the prefix range. -/
def dbGetSizeByPfx (st : Store) (pfx : Key) : OpResult Int :=
  if pfx = [] then
    ⟨-1, true, false⟩
  else
    ⟨(seekScan st pfx).length, false, true⟩

/-- `dbFindAll` (db_jni.cpp lines 206-245): empty prefix is an argument
error before the iterator is created; otherwise collects every value in the
prefix range whose size passes the `% sizeof(jbyte)` check (skipping
failures), returning `none` when nothing was collected. -/
def dbFindAll (st : Store) (pfx : Key) : OpResult (Option (List Val)) :=
  if pfx = [] then
    ⟨none, true, false⟩
  else
    let vals := ((seekScan st pfx).filter (fun e => e.2.length % 1 == 0)).map (·.2)
    ⟨if vals = [] then none else some vals, false, true⟩

/-- `dbFindByValue` (db_jni.cpp lines 247-286): empty prefix is an argument
error before the iterator is created; otherwise returns the first key in
the prefix range whose value is byte-for-byte equal to the target
(zero-length target matches only zero-length values). -/
def dbFindByValue (st : Store) (pfx : Key) (target : Val) : OpResult (Option Key) :=
  if pfx = [] then
    ⟨none, true, false⟩
  else
    ⟨((seekScan st pfx).find? (fun e => e.2 == target)).map (·.1), false, true⟩

/-- Iterator open inside `dbFind` (db_jni.cpp lines 318-343, fresh-iterator
branch): empty prefix is an argument error before the `DatabaseIterator` is
created; otherwise a handle is returned iff the freshly seeked iterator is
valid, i.e. the prefix range is non-empty. -/
def dbFind (st : Store) (pfx : Key) : OpResult Bool :=
  if pfx = [] then
    ⟨false, true, false⟩
  else
    ⟨!(seekScan st pfx).isEmpty, false, true⟩

/-- Result of a prefix removal: the returned `jint`, error flags, the
operations staged into the batch, the engine state afterwards, and whether
the engine was touched before returning. -/
structure RemoveResult where
  res : Int
  argErr : Bool
  recErr : Bool
  staged : List BatchOp
  store' : Store
  engineTouched : Bool
deriving DecidableEq, Repr

/-- `dbRemoveByPrefix` (source symbol, db_jni.cpp lines 443-478): empty
prefix is an argument error returning `-1` before the iterator is created.
Otherwise one scan of the prefix range stages a `Delete` per matching key;
if a caller batch was supplied (`batchGiven`) or nothing matched, no write
happens; otherwise the transient batch is committed, a failed write
reporting a recoverable error and returning `-1`. -/
def dbRemoveByPfx (st : Store) (batchGiven writeOk : Bool) (pfx : Key) : RemoveResult :=
  if pfx = [] then
    ⟨-1, true, false, [], st, false⟩
  else
    let staged := (seekScan st pfx).map (fun e => BatchOp.delOp e.1)
    if staged.length = 0 ∨ batchGiven then
      ⟨staged.length, false, false, staged, st, true⟩
    else if writeOk then
      ⟨staged.length, false, false, staged, applyOps st staged, true⟩
    else
      ⟨-1, false, true, staged, st, true⟩

/-- Insertion of a key into a `bytesLt`-sorted list (helper for the
`std::sort` model). -/
def insertSorted (x : Key) : List Key → List Key
  | [] => [x]
  | y :: ys => if bytesLt x y then x :: y :: ys else y :: insertSorted x ys

/-- The `std::sort(prefixes.begin(), prefixes.end())` call of
`dbRemoveByAnyPrefix`, modelled as insertion sort over byte-lexicographic
order (duplicates and equal keys are preserved). -/
def sortKeys : List Key → List Key
  | [] => []
  | x :: xs => insertSorted x (sortKeys xs)

/-- `dbRemoveByAnyPrefix` (source symbol, db_jni.cpp lines 480-537): a
zero-length prefix array is an argument error; empty strings inside the
array are silently dropped (the `stringLength > 0` guard), and if every
element was empty the remaining list is empty, which is again an argument
error. The surviving prefixes are sorted and each is scanned in turn,
staging one `Delete` per matching key per prefix, with no de-duplication;
the count of staged deletes is returned. Commit behaviour matches
`dbRemoveByPfx`. -/
def dbRemoveByAnyPfx (st : Store) (batchGiven writeOk : Bool) (pfxs : List Key) :
    RemoveResult :=
  if pfxs.length = 0 then
    ⟨-1, true, false, [], st, false⟩
  else
    let ps := pfxs.filter (fun p => !p.isEmpty)
    if ps.isEmpty then
      ⟨-1, true, false, [], st, false⟩
    else
      let staged :=
        ((sortKeys ps).map (fun p => (seekScan st p).map (fun e => BatchOp.delOp e.1))).flatten
      if staged.length = 0 ∨ batchGiven then
        ⟨staged.length, false, false, staged, st, true⟩
      else if writeOk then
        ⟨staged.length, false, false, staged, applyOps st staged, true⟩
      else
        ⟨-1, false, true, staged, st, true⟩

/-- Result of `dbGetIntOrLong`: the returned `jlong` value, any value error
reported, whether the not-found exception was thrown, and whether a
recoverable error was reported. -/
structure GetResult where
  value : Int
  valueErr : Option ValueError
  notFoundThrown : Bool
  recErr : Bool
deriving DecidableEq, Repr

/-- `dbGetIntOrLong` (db_jni.cpp lines 603-625): point lookup; an absent
key returns the caller default, throwing the not-found exception exactly
when `throwIfError` is set. A 4-byte value is parsed as `jint` and widened
(sign-extended by the `(jlong)` cast) to 64 bits; an 8-byte value is parsed
as `jlong`; any other size reports a value error naming the key and the
`size != sizeof(jlong)` mismatch and returns the default. Engine I/O
failures other than not-found are outside this model (the lookup either
finds the key or reports not-found). -/
def dbGetIntOrLong (st : Store) (k : Key) (dflt : Int) (throwIfError : Bool) : GetResult :=
  match dbGet? st k with
  | none => ⟨dflt, none, throwIfError, false⟩
  | some v =>
    if v.length = 4 then
      ⟨signedOfBytes 4 v, none, false, false⟩
    else if v.length = 8 then
      ⟨signedOfBytes 8 v, none, false, false⟩
    else
      ⟨dflt, some ⟨k, .sizeEq 8, v.length⟩, false, false⟩

/-! ### Open/recovery protocol

`dbOpen` (db_jni.cpp lines 110-156) is modelled as a trace generator. The
engine's behaviour is the environment: `openAt i` is the outcome of the
`i`-th `leveldb::DB::Open` call and `repairOk` the outcome of
`leveldb::RepairDB`, both modelled from the spec's Engine Adapter contract
(§6: open may fail transiently or structurally; repair attempts structural
repair in place). -/

/-- Modelled from the spec: outcome of one engine `Open` call — success, a
transient `IsIOError` + "Try again" failure, or any other (structural)
failure. -/
inductive OpenOutcome where
  | ok
  | transientErr
  | structuralErr
deriving DecidableEq, Repr

/-- Observable event of a `dbOpen` run: an `Open` call, a `usleep` (in
milliseconds), a `RepairDB` call, or an invocation of the caller's
fatal-error hook (`ON_ERROR` / `onFatalError`). -/
inductive Ev where
  | openCall
  | sleepMs (n : Nat)
  | repairCall
  | fatalHook
deriving DecidableEq, Repr

/-- A completed `dbOpen` run: its event trace and whether a usable (non
null) handle was returned. -/
structure OpenRun where
  evs : List Ev
  handle : Bool
deriving DecidableEq, Repr

/-- The retry loop of `dbOpen` (db_jni.cpp lines 117-131), with `c` the
current `attempt_count`. On a transient failure the code computes
`total_wait = 100 * attempt_count++`; while `total_wait < 5000` it sleeps
`usleep(100000)` — a constant 100 ms — and retries, otherwise it reports
through the fatal hook and gives up (status `none`). Any other outcome
breaks out of the loop (status `some`). The loop runs at most 51
iterations from `c = 0` (the guard fails at `c = 50`), so fuel 51 is
enough; the fuel-exhaustion branch is unreachable from `c = 0`. Returns
(events, final `attempt_count`, exit status). -/
def dbOpenLoop (openAt : Nat → OpenOutcome) : Nat → Nat → List Ev × Nat × Option OpenOutcome
  | 0, c => ([], c, some .ok)
  | fuel + 1, c =>
    match openAt c with
    | .transientErr =>
      if 100 * c < 5000 then
        let r := dbOpenLoop openAt fuel (c + 1)
        (Ev.openCall :: Ev.sleepMs 100 :: r.1, r.2)
      else
        ([Ev.openCall, Ev.fatalHook], c, none)
    | st => ([Ev.openCall], c, some st)

/-- The post-loop part of `dbOpen` (db_jni.cpp lines 132-155), applied to
the retry loop's (events, final `attempt_count`, exit status): a
fatal-timeout exit returns no handle; a successful open returns the
handle; any other (structural) failure calls `RepairDB` once and, only if
it succeeded, attempts exactly one reopen; any failure on this path
reports through the fatal hook and returns no handle. -/
def dbOpenFinish (openAt : Nat → OpenOutcome) (repairOk : Bool) :
    List Ev × Nat × Option OpenOutcome → OpenRun
  | (evs, _, none) => ⟨evs, false⟩
  | (evs, _, some .ok) => ⟨evs, true⟩
  | (evs, c, some _) =>
    cond repairOk
      (match openAt (c + 1) with
        | .ok => ⟨evs ++ [Ev.repairCall, Ev.openCall], true⟩
        | _ => ⟨evs ++ [Ev.repairCall, Ev.openCall, Ev.fatalHook], false⟩)
      ⟨evs ++ [Ev.repairCall, Ev.fatalHook], false⟩

/-- `dbOpen` (db_jni.cpp lines 110-156): the retry loop followed by the
repair-and-reopen recovery path. -/
def dbOpen (openAt : Nat → OpenOutcome) (repairOk : Bool) : OpenRun :=
  dbOpenFinish openAt repairOk (dbOpenLoop openAt 51 0)

/-- Counts the events satisfying `p` in a trace. -/
def countP (p : Ev → Bool) (evs : List Ev) : Nat :=
  (evs.filter p).length

/-- Recognizes `Open` calls. -/
def isOpenCall : Ev → Bool
  | .openCall => true
  | _ => false

/-- Recognizes sleeps. -/
def isSleep : Ev → Bool
  | .sleepMs _ => true
  | _ => false

/-- Recognizes `RepairDB` calls. -/
def isRepairCall : Ev → Bool
  | .repairCall => true
  | _ => false

/-- The sleep durations of a trace, in order. -/
def sleepsOf (evs : List Ev) : List Nat :=
  evs.filterMap (fun e => match e with | .sleepMs n => some n | _ => none)

/-- An engine whose every open attempt fails transiently. -/
def allTransient : Nat → OpenOutcome :=
  fun _ => .transientErr

/-- An engine whose every open attempt fails structurally. -/
def allStructural : Nat → OpenOutcome :=
  fun _ => .structuralErr

/-! ### Codec lemmas -/

theorem bytesOfNat_length (w n : Nat) : (bytesOfNat w n).length = w := by
  induction w generalizing n with
  | zero => rfl
  | succ w ih => simp [bytesOfNat, ih]

theorem natOfBytes_bytesOfNat (w n : Nat) (h : n < 256 ^ w) :
    natOfBytes (bytesOfNat w n) = n := by
  induction w generalizing n with
  | zero =>
    simp [Nat.pow_zero] at h
    simp [h, bytesOfNat, natOfBytes]
  | succ w ih =>
    have hdiv : n / 256 < 256 ^ w := by
      rw [Nat.div_lt_iff_lt_mul (by norm_num : 0 < 256)]
      calc n < 256 ^ (w + 1) := h
        _ = 256 ^ w * 256 := by rw [Nat.pow_succ]
    simp [bytesOfNat, natOfBytes, ih _ hdiv]
    omega

theorem flatten_map_length (w : Nat) (xs : List Nat) :
    ((xs.map (bytesOfNat w)).flatten).length = w * xs.length := by
  induction xs with
  | nil => simp
  | cons x xs ih =>
    simp only [List.map_cons, List.flatten_cons, List.length_append, ih,
      bytesOfNat_length, List.length_cons]
    ring

theorem chunksGo_flatten (w : Nat) (xs : List Nat)
    (hx : ∀ x ∈ xs, x < 256 ^ w) :
    chunksGo w xs.length ((xs.map (bytesOfNat w)).flatten) = xs := by
  induction xs with
  | nil => rfl
  | cons x xs ih =>
    simp only [List.map_cons, List.flatten_cons, List.length_cons, chunksGo]
    rw [List.take_left' (bytesOfNat_length w x), List.drop_left' (bytesOfNat_length w x),
      natOfBytes_bytesOfNat w x (hx x (by simp)), ih (fun y hy => hx y (by simp [hy]))]

theorem chunksToNats_flatten (w : Nat) (xs : List Nat) (hw : 0 < w)
    (hx : ∀ x ∈ xs, x < 256 ^ w) :
    chunksToNats w ((xs.map (bytesOfNat w)).flatten) = xs := by
  unfold chunksToNats
  rw [flatten_map_length, Nat.mul_div_cancel_left _ hw]
  exact chunksGo_flatten w xs hx

theorem jsizeOfBytes_encode (n : Nat) (rest : List Nat) (h : n < 2 ^ 31) :
    jsizeOfBytes (bytesOfNat 4 n ++ rest) = (n : Int) := by
  unfold jsizeOfBytes signedOfBytes
  rw [List.take_left' (bytesOfNat_length 4 n),
    natOfBytes_bytesOfNat 4 n (lt_trans h (by norm_num))]
  have h' : n < 2147483648 := by
    have := h
    norm_num at this
    exact this
  have h2 : 2 * n < 4294967296 := by omega
  simp [h2]

theorem parseStringsLoop_cons (count : Nat) (s tail : List Nat)
    (hs : s.length < 2 ^ 31) :
    parseStringsLoop (count + 1) (encString s ++ tail) =
      match parseStringsLoop count tail with
      | none => none
      | some t => some (some (chunksToNats 2 ((s.map (bytesOfNat 2)).flatten)) :: t) := by
  have hP : ((s.map (bytesOfNat 2)).flatten).length = 2 * s.length :=
    flatten_map_length 2 s
  have hassoc : encString s ++ tail =
      bytesOfNat 4 s.length ++ ((s.map (bytesOfNat 2)).flatten ++ tail) := by
    simp [encString, List.append_assoc]
  have hlen : (encString s ++ tail).length = 4 + (2 * s.length + tail.length) := by
    rw [hassoc]
    simp [List.length_append, bytesOfNat_length, hP]
  have hjs : jsizeOfBytes (encString s ++ tail) = (s.length : Int) := by
    rw [hassoc]
    exact jsizeOfBytes_encode s.length _ hs
  have hdrop : (encString s ++ tail).drop 4 = (s.map (bytesOfNat 2)).flatten ++ tail := by
    rw [hassoc]
    exact List.drop_left' (bytesOfNat_length 4 s.length)
  simp only [parseStringsLoop, hjs, hdrop, hlen]
  rw [if_neg (by omega), if_neg (by omega), if_neg (by omega : ¬((s.length : Int) < 0)),
    if_neg]
  · rw [Int.toNat_natCast,
      List.take_left' (by rw [hP]; ring),
      List.drop_left' (by rw [hP]; ring)]
  · rw [Int.toNat_natCast, List.length_append, hP]
    omega

theorem parseStringsLoop_encode (ss : List (List Nat))
    (h1 : ∀ s ∈ ss, s.length < 2 ^ 31)
    (h2 : ∀ s ∈ ss, ∀ u ∈ s, u < 2 ^ 16) :
    parseStringsLoop ss.length ((ss.map encString).flatten) = some (ss.map some) := by
  induction ss with
  | nil => rfl
  | cons s ss ih =>
    simp only [List.map_cons, List.flatten_cons, List.length_cons]
    rw [parseStringsLoop_cons ss.length s _ (h1 s (by simp)),
      ih (fun t ht => h1 t (by simp [ht])) (fun t ht => h2 t (by simp [ht])),
      chunksToNats_flatten 2 s (by norm_num)
        (fun u hu => lt_of_lt_of_eq (h2 s (by simp) u hu) (by norm_num))]

theorem dbParseStringArray_encode (ss : List (List Nat))
    (h0 : ss.length < 2 ^ 31)
    (h1 : ∀ s ∈ ss, s.length < 2 ^ 31)
    (h2 : ∀ s ∈ ss, ∀ u ∈ s, u < 2 ^ 16) :
    dbParseStringArray (dbPutStringArray ss) = some (ss.map some) := by
  unfold dbParseStringArray dbPutStringArray
  have hjs : jsizeOfBytes (bytesOfNat 4 ss.length ++ (ss.map encString).flatten) =
      (ss.length : Int) := jsizeOfBytes_encode ss.length _ h0
  have hlen : (bytesOfNat 4 ss.length ++ (ss.map encString).flatten).length =
      4 + ((ss.map encString).flatten).length := by
    simp [List.length_append, bytesOfNat_length]
  rw [hlen, hjs, if_neg (by omega), if_neg (by omega : ¬((ss.length : Int) < 0)),
    Int.toNat_natCast, List.drop_left' (bytesOfNat_length 4 ss.length)]
  exact parseStringsLoop_encode ss h1 h2

/-! ### Store lemmas -/

theorem dbGet?_eraseKey_self (st : Store) (k : Key) :
    dbGet? (eraseKey st k) k = none := by
  induction st with
  | nil => rfl
  | cons e st ih =>
    by_cases h : e.1 = k
    · simp [eraseKey, h, ih]
    · simp [eraseKey, dbGet?, h, ih]

theorem dbGet?_eraseKey_ne (st : Store) (k' k : Key) (h : k' ≠ k) :
    dbGet? (eraseKey st k') k = dbGet? st k := by
  induction st with
  | nil => rfl
  | cons e st ih =>
    by_cases h1 : e.1 = k'
    · have h2 : e.1 ≠ k := by
        rw [h1]
        exact h
      simp [eraseKey, dbGet?, h1, h2, h, ih]
    · simp only [eraseKey, if_neg h1, dbGet?, ih]

theorem dbGet?_eraseKey (st : Store) (k' k : Key) :
    dbGet? (eraseKey st k') k = if k' = k then none else dbGet? st k := by
  by_cases h : k' = k
  · rw [if_pos h, h]
    exact dbGet?_eraseKey_self st k
  · rw [if_neg h]
    exact dbGet?_eraseKey_ne st k' k h

theorem dbGet?_append (s₁ s₂ : Store) (k : Key) :
    dbGet? (s₁ ++ s₂) k =
      match dbGet? s₁ k with
      | some v => some v
      | none => dbGet? s₂ k := by
  induction s₁ with
  | nil => simp [dbGet?]
  | cons e s₁ ih =>
    by_cases h : e.1 = k
    · simp [dbGet?, h]
    · simp [dbGet?, h, ih]

theorem dbGet?_applyOp (st : Store) (op : BatchOp) (k : Key) :
    dbGet? (applyOp st op) k =
      match op with
      | .putOp k' v => if k' = k then some v else dbGet? st k
      | .delOp k' => if k' = k then none else dbGet? st k := by
  cases op with
  | putOp k' v =>
    simp only [applyOp, dbGet?_append, dbGet?_eraseKey]
    by_cases h : k' = k
    · simp [h, dbGet?]
    · simp [h, dbGet?]
      cases dbGet? st k <;> simp
  | delOp k' =>
    simp [applyOp, dbGet?_eraseKey]

theorem applyOps_lookup (ops : List BatchOp) (st : Store) (k : Key) :
    dbGet? (applyOps st ops) k = (stagedEffect ops k).getD (dbGet? st k) := by
  induction ops generalizing st with
  | nil => simp [applyOps, stagedEffect]
  | cons op ops ih =>
    have step : applyOps st (op :: ops) = applyOps (applyOp st op) ops := by
      simp [applyOps, List.foldl_cons]
    rw [step, ih]
    cases hse : stagedEffect ops k with
    | some r => simp [stagedEffect, hse]
    | none =>
      simp only [stagedEffect, hse, Option.getD_none]
      rw [dbGet?_applyOp]
      cases op with
      | putOp k' v =>
        by_cases h : k' = k <;> simp [h]
      | delOp k' =>
        by_cases h : k' = k <;> simp [h]

/-! ### Open-loop lemmas -/

theorem countP_cons (p : Ev → Bool) (e : Ev) (evs : List Ev) :
    countP p (e :: evs) = (if p e then 1 else 0) + countP p evs := by
  simp only [countP, List.filter_cons]
  split
  · simp [Nat.add_comm]
  · simp

theorem countP_append (p : Ev → Bool) (l₁ l₂ : List Ev) :
    countP p (l₁ ++ l₂) = countP p l₁ + countP p l₂ := by
  simp [countP, List.filter_append]

theorem dbOpenLoop_sleeps_const (openAt : Nat → OpenOutcome) (fuel c : Nat) :
    ∀ n, Ev.sleepMs n ∈ (dbOpenLoop openAt fuel c).1 → n = 100 := by
  induction fuel generalizing c with
  | zero => intro n hn; simp [dbOpenLoop] at hn
  | succ fuel ih =>
    intro n hn
    cases ho : openAt c with
    | transientErr =>
      simp only [dbOpenLoop, ho] at hn
      by_cases hc : 100 * c < 5000
      · rw [if_pos hc] at hn
        simp only [List.mem_cons] at hn
        rcases hn with h1 | h1 | h1
        · exact absurd h1 (by simp)
        · exact Ev.sleepMs.inj h1
        · exact ih (c + 1) n h1
      · rw [if_neg hc] at hn
        simp at hn
    | ok => simp [dbOpenLoop, ho] at hn
    | structuralErr => simp [dbOpenLoop, ho] at hn

theorem dbOpenLoop_sleep_count (openAt : Nat → OpenOutcome) (fuel c : Nat) :
    countP isSleep (dbOpenLoop openAt fuel c).1 ≤ 50 - c := by
  induction fuel generalizing c with
  | zero => simp [dbOpenLoop, countP]
  | succ fuel ih =>
    cases ho : openAt c with
    | transientErr =>
      simp only [dbOpenLoop, ho]
      by_cases hc : 100 * c < 5000
      · rw [if_pos hc]
        have h1 := ih (c + 1)
        rw [countP_cons, countP_cons]
        have e1 : (if isSleep Ev.openCall then 1 else 0) = 0 := rfl
        have e2 : (if isSleep (Ev.sleepMs 100) then 1 else 0) = 1 := rfl
        rw [e1, e2]
        omega
      · rw [if_neg hc]
        simp [countP, isSleep, List.filter]
    | ok => simp [dbOpenLoop, ho, countP, isSleep, List.filter]
    | structuralErr => simp [dbOpenLoop, ho, countP, isSleep, List.filter]

theorem dbOpenLoop_timeout (openAt : Nat → OpenOutcome) (fuel c : Nat)
    (h : (dbOpenLoop openAt fuel c).2.2 = none) :
    countP isSleep (dbOpenLoop openAt fuel c).1 = 50 - c ∧
      Ev.fatalHook ∈ (dbOpenLoop openAt fuel c).1 := by
  induction fuel generalizing c with
  | zero => simp [dbOpenLoop] at h
  | succ fuel ih =>
    cases ho : openAt c with
    | transientErr =>
      simp only [dbOpenLoop, ho] at h ⊢
      by_cases hc : 100 * c < 5000
      · rw [if_pos hc] at h ⊢
        have h2 := ih (c + 1) h
        rw [countP_cons, countP_cons]
        have e1 : (if isSleep Ev.openCall then 1 else 0) = 0 := rfl
        have e2 : (if isSleep (Ev.sleepMs 100) then 1 else 0) = 1 := rfl
        rw [e1, e2]
        simp only [List.mem_cons]
        refine ⟨by omega, Or.inr (Or.inr h2.2)⟩
      · rw [if_neg hc] at h ⊢
        constructor
        · show countP isSleep [Ev.openCall, Ev.fatalHook] = 50 - c
          have e0 : countP isSleep [Ev.openCall, Ev.fatalHook] = 0 := rfl
          omega
        · show Ev.fatalHook ∈ [Ev.openCall, Ev.fatalHook]
          simp
    | ok => simp [dbOpenLoop, ho] at h
    | structuralErr => simp [dbOpenLoop, ho] at h

theorem dbOpenLoop_no_fatal (openAt : Nat → OpenOutcome) (fuel c : Nat) (st : OpenOutcome)
    (h : (dbOpenLoop openAt fuel c).2.2 = some st) :
    Ev.fatalHook ∉ (dbOpenLoop openAt fuel c).1 := by
  induction fuel generalizing c st with
  | zero => simp [dbOpenLoop]
  | succ fuel ih =>
    cases ho : openAt c with
    | transientErr =>
      simp only [dbOpenLoop, ho] at h ⊢
      by_cases hc : 100 * c < 5000
      · rw [if_pos hc] at h ⊢
        simp only [List.mem_cons, not_or]
        exact ⟨by simp, by simp, ih (c + 1) st h⟩
      · rw [if_neg hc] at h
        simp at h
    | ok => simp [dbOpenLoop, ho]
    | structuralErr => simp [dbOpenLoop, ho]

theorem dbOpenLoop_no_repair (openAt : Nat → OpenOutcome) (fuel c : Nat) :
    Ev.repairCall ∉ (dbOpenLoop openAt fuel c).1 := by
  induction fuel generalizing c with
  | zero => simp [dbOpenLoop]
  | succ fuel ih =>
    cases ho : openAt c with
    | transientErr =>
      simp only [dbOpenLoop, ho]
      by_cases hc : 100 * c < 5000
      · rw [if_pos hc]
        simp only [List.mem_cons, not_or]
        exact ⟨by simp, by simp, ih (c + 1)⟩
      · rw [if_neg hc]
        simp
    | ok => simp [dbOpenLoop, ho]
    | structuralErr => simp [dbOpenLoop, ho]

/-- Properties of a trace extended by a non-sleeping tail that contains the
repair call; covers every repair-path exit of `dbOpen`. -/
theorem repairTail_props (evs tail : List Ev) {P : Prop}
    (hs : ∀ n, Ev.sleepMs n ∈ evs → n = 100)
    (hcnt : countP isSleep evs ≤ 50)
    (htc : countP isSleep tail = 0)
    (hnomem : ∀ n, Ev.sleepMs n ∈ tail → False)
    (hrep : Ev.repairCall ∈ tail) :
    (∀ n, Ev.sleepMs n ∈ evs ++ tail → n = 100) ∧
    countP isSleep (evs ++ tail) ≤ 50 ∧
    (Ev.fatalHook ∈ evs ++ tail → Ev.repairCall ∉ evs ++ tail → P) := by
  refine ⟨?_, ?_, ?_⟩
  · intro n hn
    rcases List.mem_append.mp hn with h1 | h1
    · exact hs n h1
    · exact absurd h1 (hnomem n)
  · rw [countP_append]
    omega
  · intro _ h2
    exact absurd (List.mem_append.mpr (Or.inr hrep)) h2

/-! ### Claim C1 -/

/-- Claim C1 (counterexample): the claim asserts linear backoff — the wait
before the next attempt is `100ms * attemptNumber` with `attemptNumber`
incremented on each retry, so two consecutive observed waits would have to
be `100 * n` and `100 * (n + 1)` for some `n`. Against an engine whose
open always fails transiently, the code's first two waits are both 100 ms,
so no such `n` exists: the claimed wait schedule is refuted. -/
theorem C1_counterexample :
    ¬ ∃ n0 : Nat,
      (sleepsOf (dbOpen allTransient true).evs).get? 0 = some (100 * n0) ∧
      (sleepsOf (dbOpen allTransient true).evs).get? 1 = some (100 * (n0 + 1)) := by
  rintro ⟨n0, h0, h1⟩
  have e0 : (sleepsOf (dbOpen allTransient true).evs).get? 0 = some 100 := by decide
  have e1 : (sleepsOf (dbOpen allTransient true).evs).get? 1 = some 100 := by decide
  rw [e0] at h0
  rw [e1] at h1
  have g0 := Option.some.inj h0
  have g1 := Option.some.inj h1
  omega

/-- Claim C1 (amended): during open, a transient "Try again" error is
retried after a constant 100 ms wait (not `100ms * attemptNumber`);
`attempt_count` increments on each retry and the loop aborts with a fatal
failure, instead of retrying again, once the cumulative wait
`100 * attempt_count` reaches 5000 ms — i.e. after at most 50 retries.
Formally: every wait in any `dbOpen` trace is 100 ms, at most 50 waits
occur, and a run that reports fatally without ever entering the repair
path (the retry-quota abort) has slept exactly 50 times (5000 ms
cumulative) and returns no handle. -/
theorem C1_amended (openAt : Nat → OpenOutcome) (repairOk : Bool) :
    (∀ n, Ev.sleepMs n ∈ (dbOpen openAt repairOk).evs → n = 100) ∧
    countP isSleep (dbOpen openAt repairOk).evs ≤ 50 ∧
    (Ev.fatalHook ∈ (dbOpen openAt repairOk).evs →
      Ev.repairCall ∉ (dbOpen openAt repairOk).evs →
      countP isSleep (dbOpen openAt repairOk).evs = 50 ∧
        (dbOpen openAt repairOk).handle = false) := by
  have hs := dbOpenLoop_sleeps_const openAt 51 0
  have hcnt := dbOpenLoop_sleep_count openAt 51 0
  have hto := dbOpenLoop_timeout openAt 51 0
  have hnf := dbOpenLoop_no_fatal openAt 51 0
  rcases hL : dbOpenLoop openAt 51 0 with ⟨evs, c, stv⟩
  rw [hL] at hs hcnt hto hnf
  dsimp only at hs hcnt hto hnf
  simp only [dbOpen, hL]
  cases stv with
  | none =>
    have hT := hto rfl
    simp only [dbOpenFinish]
    exact ⟨hs, by omega, fun _ _ => ⟨by omega, trivial⟩⟩
  | some stv =>
    cases stv with
    | ok =>
      have hF := hnf .ok rfl
      simp only [dbOpenFinish]
      exact ⟨hs, by omega, fun hmem _ => absurd hmem hF⟩
    | transientErr =>
      cases repairOk with
      | false =>
        simp only [dbOpenFinish, cond_false]
        exact repairTail_props evs [Ev.repairCall, Ev.fatalHook] hs (by omega) rfl
          (fun n hn => by simp at hn) (by simp)
      | true =>
        simp only [dbOpenFinish, cond_true]
        cases h1 : openAt (c + 1) with
        | ok =>
          exact repairTail_props evs [Ev.repairCall, Ev.openCall] hs (by omega) rfl
            (fun n hn => by simp at hn) (by simp)
        | transientErr =>
          exact repairTail_props evs [Ev.repairCall, Ev.openCall, Ev.fatalHook] hs
            (by omega) rfl (fun n hn => by simp at hn) (by simp)
        | structuralErr =>
          exact repairTail_props evs [Ev.repairCall, Ev.openCall, Ev.fatalHook] hs
            (by omega) rfl (fun n hn => by simp at hn) (by simp)
    | structuralErr =>
      cases repairOk with
      | false =>
        simp only [dbOpenFinish, cond_false]
        exact repairTail_props evs [Ev.repairCall, Ev.fatalHook] hs (by omega) rfl
          (fun n hn => by simp at hn) (by simp)
      | true =>
        simp only [dbOpenFinish, cond_true]
        cases h1 : openAt (c + 1) with
        | ok =>
          exact repairTail_props evs [Ev.repairCall, Ev.openCall] hs (by omega) rfl
            (fun n hn => by simp at hn) (by simp)
        | transientErr =>
          exact repairTail_props evs [Ev.repairCall, Ev.openCall, Ev.fatalHook] hs
            (by omega) rfl (fun n hn => by simp at hn) (by simp)
        | structuralErr =>
          exact repairTail_props evs [Ev.repairCall, Ev.openCall, Ev.fatalHook] hs
            (by omega) rfl (fun n hn => by simp at hn) (by simp)

/-- Claim C1 (witness): the amended theorem applied to the all-transient
engine: such a run sleeps exactly 50 times and returns no handle. -/
theorem C1_amended_witness :
    countP isSleep (dbOpen allTransient true).evs = 50 ∧
      (dbOpen allTransient true).handle = false :=
  (C1_amended allTransient true).2.2 (by decide) (by decide)

/-! ### Claim C7 -/

/-- Claim C7 (counterexample): when the first open attempt fails
structurally and the repair also fails, the claim asserts that exactly one
reopen is still attempted (one open call before repair, one after: two in
total). The code attempts no reopen after a failed repair: the trace is
exactly open, repair, fatal hook — a single open call, not two. -/
theorem C7_counterexample :
    (dbOpen allStructural false).evs = [Ev.openCall, Ev.repairCall, Ev.fatalHook] ∧
    countP isRepairCall (dbOpen allStructural false).evs = 1 ∧
    countP isOpenCall (dbOpen allStructural false).evs ≠ 2 :=
  ⟨by decide, by decide, by decide⟩

/-- Claim C7 (amended): when the first open attempt fails structurally, the
protocol invokes repair exactly once and attempts exactly one reopen only
if the repair succeeded (no reopen is attempted after a failed repair); if
the repair or the reopen fails it reports a diagnostic through the
fatal-error hook and returns no usable handle, and it performs no further
retry attempts (and no backoff sleeps) in any case. -/
theorem C7_amended (openAt : Nat → OpenOutcome) (repairOk : Bool)
    (h0 : openAt 0 = .structuralErr) :
    countP isRepairCall (dbOpen openAt repairOk).evs = 1 ∧
    countP isOpenCall (dbOpen openAt repairOk).evs = (if repairOk then 2 else 1) ∧
    countP isSleep (dbOpen openAt repairOk).evs = 0 ∧
    (repairOk = false →
      (dbOpen openAt repairOk).handle = false ∧
        Ev.fatalHook ∈ (dbOpen openAt repairOk).evs) ∧
    (repairOk = true → openAt 1 = .ok →
      (dbOpen openAt repairOk).handle = true ∧
        Ev.fatalHook ∉ (dbOpen openAt repairOk).evs) ∧
    (repairOk = true → openAt 1 ≠ .ok →
      (dbOpen openAt repairOk).handle = false ∧
        Ev.fatalHook ∈ (dbOpen openAt repairOk).evs) := by
  have hL : dbOpenLoop openAt 51 0 = ([Ev.openCall], 0, some .structuralErr) := by
    show dbOpenLoop openAt (50 + 1) 0 = _
    simp [dbOpenLoop, h0]
  simp only [dbOpen, hL]
  cases repairOk with
  | false =>
    simp only [dbOpenFinish, cond_false]
    refine ⟨by decide, by decide, by decide, fun _ => ⟨by decide, by decide⟩, ?_, ?_⟩
    · intro h
      exact absurd h (by decide)
    · intro h
      exact absurd h (by decide)
  | true =>
    simp only [dbOpenFinish, cond_true, Nat.zero_add]
    cases h1 : openAt 1 with
    | ok =>
      refine ⟨by decide, by decide, by decide, ?_, fun _ _ => ⟨by decide, by decide⟩, ?_⟩
      · intro h
        exact absurd h (by decide)
      · intro _ hne
        exact absurd rfl hne
    | transientErr =>
      refine ⟨by decide, by decide, by decide, ?_, ?_, fun _ _ => ⟨by decide, by decide⟩⟩
      · intro h
        exact absurd h (by decide)
      · intro _ hok
        exact absurd hok (by decide)
    | structuralErr =>
      refine ⟨by decide, by decide, by decide, ?_, ?_, fun _ _ => ⟨by decide, by decide⟩⟩
      · intro h
        exact absurd h (by decide)
      · intro _ hok
        exact absurd hok (by decide)

/-- Claim C7 (witness): the amended theorem applied to the all-structural
engine with a failing repair: one repair call, one open call, no handle. -/
theorem C7_amended_witness :
    countP isRepairCall (dbOpen allStructural false).evs = 1 ∧
      (dbOpen allStructural false).handle = false := by
  have h := C7_amended allStructural false (by decide)
  exact ⟨h.1, (h.2.2.2.1 rfl).1⟩

/-! ### Claim C2 -/

/-- Claim C2 (counterexample): the claim says `TextArray` decoding fails
with a value error when the buffer is exhausted before the declared string
count is consumed. The stored value `[2,0,0,0, 0,0,0,0]` declares two
strings but contains only one (an empty string), exhausting the buffer at
an entry boundary — and decoding does not fail: it returns a two-slot
array whose second slot is still null. -/
theorem C2_counterexample :
    dbParseStringArray [2, 0, 0, 0, 0, 0, 0, 0] = some [some [], none] ∧
      dbParseStringArray [2, 0, 0, 0, 0, 0, 0, 0] ≠ none :=
  ⟨by decide, by decide⟩

/-- Claim C2 (amended): `TextArray` decoding reads the leading 4-byte
declared count and then, per string, a 4-byte length followed by that many
2-byte code units. It fails with a value error when a buffer is shorter
than the 4-byte count, when a positive number of bytes smaller than 4
remains where a length is expected, when a declared per-string length is
negative, or when fewer payload bytes remain than the declared length
requires; but when the buffer is exhausted exactly at an entry boundary
before the declared count of strings has been consumed, it returns a
partially-filled result (remaining slots null) instead of failing. -/
theorem C2_amended :
    (∀ v : List Nat, v.length < 4 → dbParseStringArray v = none) ∧
    (∀ (count : Nat) (bs : List Nat), bs ≠ [] → bs.length < 4 →
      parseStringsLoop (count + 1) bs = none) ∧
    (∀ (count : Nat) (bs : List Nat), 4 ≤ bs.length → jsizeOfBytes bs < 0 →
      parseStringsLoop (count + 1) bs = none) ∧
    (∀ (count : Nat) (bs : List Nat), 4 ≤ bs.length → 0 ≤ jsizeOfBytes bs →
      (bs.drop 4).length < (jsizeOfBytes bs).toNat * 2 →
      parseStringsLoop (count + 1) bs = none) ∧
    (∀ count : Nat,
      parseStringsLoop (count + 1) [] = some (List.replicate (count + 1) none)) := by
  refine ⟨?_, ?_, ?_, ?_, ?_⟩
  · intro v h
    simp [dbParseStringArray, h]
  · intro count bs h h4
    have h0 : bs.length ≠ 0 := by
      simpa [List.length_eq_zero] using h
    simp [parseStringsLoop, h0, h4]
  · intro count bs h4 hneg
    simp only [parseStringsLoop]
    rw [if_neg (by omega), if_neg (by omega)]
    simp [hneg]
  · intro count bs h4 hpos hlen
    simp only [parseStringsLoop]
    rw [if_neg (by omega), if_neg (by omega), if_neg (by omega), if_pos hlen]
  · intro count
    simp [parseStringsLoop]

/-- Claim C2 (witness): the amended error conditions evaluated at concrete
corrupt buffers: a 3-byte buffer fails, and a string entry declaring a
negative length (`0xFFFFFFFF`) fails. -/
theorem C2_amended_witness :
    dbParseStringArray [1, 2, 3] = none ∧
      parseStringsLoop 1 [255, 255, 255, 255] = none :=
  ⟨C2_amended.1 [1, 2, 3] (by decide),
   C2_amended.2.2.1 0 [255, 255, 255, 255] (by decide) (by decide)⟩

/-! ### Claim C3 -/

/-- Claim C3: multi-prefix removal with overlapping prefixes — with stored
key "ab1" (bytes `[97,98,49]`) and prefixes "ab" and "a" given in that
order, the operation sorts the prefixes (to `["a","ab"]`), scans once per
prefix, stages a `Delete` for the same key once per matching prefix with
no de-duplication (two staged deletes for one key), returns
`removedCount = 2`, and afterwards exactly the one distinct key is absent
(the committed store is empty). The engine scan-and-write semantics are
modelled from the spec's Engine Adapter contract. -/
theorem C3_overlap_quirk :
    (dbRemoveByAnyPfx [([97, 98, 49], [1])] false true [[97, 98], [97]]).staged =
      [.delOp [97, 98, 49], .delOp [97, 98, 49]] ∧
    (dbRemoveByAnyPfx [([97, 98, 49], [1])] false true [[97, 98], [97]]).res = 2 ∧
    (dbRemoveByAnyPfx [([97, 98, 49], [1])] false true [[97, 98], [97]]).store' = [] ∧
    sortKeys ([[97, 98], [97]].filter (fun p => !p.isEmpty)) = [[97], [97, 98]] ∧
    ((dbRemoveByAnyPfx [([97, 98, 49], [1])] false true [[97, 98], [97]]).staged.map
        (fun op => match op with | BatchOp.putOp k _ => k | BatchOp.delOp k => k)).dedup =
      [[97, 98, 49]] := by
  refine ⟨by decide, by decide, by decide, by decide, by decide⟩

/-! ### Claim C4 -/

/-- Claim C4: round-trip — for every supported type and representable
value, decoding the encoding yields the value back: scalars of any width
(bit patterns below `256^w`), scalar arrays, text (2-byte code units), and
string arrays (count below `2^31`, each length below `2^31`). Zero-length
arrays and strings encode as the zero-length byte string (`dbPutVoid`'s
`Unit` encoding), while the empty string array encodes as a 4-byte zero
count, distinct from `Unit`, and decodes back to the empty array. -/
theorem C4_roundtrip :
    (∀ (w pat : Nat) (key : List Nat) (dflt : Nat), pat < 256 ^ w →
      dbParse w key (dbPutScalar w pat) dflt = (none, pat)) ∧
    (∀ (w : Nat) (key : List Nat) (xs : List Nat), 0 < w → (∀ x ∈ xs, x < 256 ^ w) →
      dbParseArray w key (dbPutArray w xs) = (none, some xs)) ∧
    (∀ (key s : List Nat) (dflt : Option (List Nat)), (∀ u ∈ s, u < 2 ^ 16) →
      dbParseString key (dbPutString s) dflt = (none, some s)) ∧
    (∀ ss : List (List Nat), ss.length < 2 ^ 31 → (∀ s ∈ ss, s.length < 2 ^ 31) →
      (∀ s ∈ ss, ∀ u ∈ s, u < 2 ^ 16) →
      dbParseStringArray (dbPutStringArray ss) = some (ss.map some)) ∧
    ((∀ w : Nat, dbPutArray w [] = dbPutVoid) ∧
      dbPutString [] = dbPutVoid ∧
      dbPutStringArray [] = [0, 0, 0, 0] ∧
      dbPutStringArray [] ≠ dbPutVoid ∧
      dbParseStringArray (dbPutStringArray []) = some []) := by
  refine ⟨?_, ?_, ?_, ?_, ?_, ?_, ?_, ?_⟩
  · intro w pat key dflt hp
    unfold dbParse dbPutScalar
    rw [bytesOfNat_length]
    simp [natOfBytes_bytesOfNat w pat hp]
  · intro w key xs hw hx
    unfold dbParseArray dbPutArray
    rw [flatten_map_length]
    have hmod : (w * xs.length) % w = 0 := Nat.mul_mod_right w _
    simp only [hmod, ne_eq, not_true_eq_false, if_false]
    rw [chunksToNats_flatten w xs hw hx]
  · intro key s dflt hu
    unfold dbParseString dbPutString
    rw [flatten_map_length]
    have hmod : (2 * s.length) % 2 = 0 := Nat.mul_mod_right 2 _
    simp only [hmod, ne_eq, not_true_eq_false, if_false]
    rw [chunksToNats_flatten 2 s (by norm_num)
      (fun u hmem => lt_of_lt_of_eq (hu u hmem) (by norm_num))]
  · exact dbParseStringArray_encode
  · intro w
    simp [dbPutArray, dbPutVoid]
  · rfl
  · decide
  · exact ⟨by decide, by decide⟩

/-- Claim C4 (witness): round trips evaluated at concrete values of each
kind, including a 64-bit value with the top bit set and an array
containing the empty string. -/
theorem C4_roundtrip_witness :
    dbParse 4 [107] (dbPutScalar 4 3000000000) 7 = (none, 3000000000) ∧
    dbParseArray 8 [107] (dbPutArray 8 [5, 2 ^ 63]) = (none, some [5, 2 ^ 63]) ∧
    dbParseString [107] (dbPutString [104, 105]) none = (none, some [104, 105]) ∧
    dbParseStringArray (dbPutStringArray [[104, 105], []]) =
      some [some [104, 105], some []] :=
  ⟨C4_roundtrip.1 4 3000000000 [107] 7 (by decide),
   C4_roundtrip.2.1 8 [107] [5, 2 ^ 63] (by decide) (by decide),
   C4_roundtrip.2.2.1 [107] [104, 105] none (by decide),
   C4_roundtrip.2.2.2.1 [[104, 105], []] (by decide) (by decide) (by decide)⟩

/-! ### Claim C5 -/

/-- Claim C5: batch commit — when the engine write fails, the staged
operations are left intact in the batch, the store is unchanged (so no
staged operation's effect is observable in any subsequent read), and a
recoverable error is reported; when it succeeds, all staged operations are
applied (reads afterwards see exactly the net staged effect) and the batch
is cleared for reuse. The engine's atomic `Write` is modelled from the
spec's Engine Adapter contract. -/
theorem C5_batch_atomicity (writeOk : Bool) (st : Store) (ops : List BatchOp) :
    (writeOk = false →
      (dbBatchPerform writeOk st ops).store' = st ∧
      (dbBatchPerform writeOk st ops).ops' = ops ∧
      (dbBatchPerform writeOk st ops).recErr = true ∧
      ∀ k, dbGet? (dbBatchPerform writeOk st ops).store' k = dbGet? st k) ∧
    (writeOk = true →
      (dbBatchPerform writeOk st ops).store' = applyOps st ops ∧
      (dbBatchPerform writeOk st ops).ops' = [] ∧
      (dbBatchPerform writeOk st ops).recErr = false ∧
      ∀ k, dbGet? (dbBatchPerform writeOk st ops).store' k =
        (stagedEffect ops k).getD (dbGet? st k)) := by
  cases writeOk with
  | false =>
    exact ⟨fun _ => ⟨rfl, rfl, rfl, fun _ => rfl⟩, fun h => absurd h (by decide)⟩
  | true =>
    exact ⟨fun h => absurd h (by decide),
      fun _ => ⟨rfl, rfl, rfl, fun k => applyOps_lookup ops st k⟩⟩

/-- Claim C5 (witness): a successful commit makes a staged put visible and
clears nothing it should not; a failed commit leaves the batch intact and
the old value readable. -/
theorem C5_batch_atomicity_witness :
    dbGet? (dbBatchPerform true [] [BatchOp.putOp [1] [2]]).store' [1] = some [2] ∧
    (dbBatchPerform false [([3], [4])] [BatchOp.delOp [3]]).ops' = [BatchOp.delOp [3]] ∧
    dbGet? (dbBatchPerform false [([3], [4])] [BatchOp.delOp [3]]).store' [3] = some [4] := by
  refine ⟨?_, ?_, ?_⟩
  · rw [((C5_batch_atomicity true [] [BatchOp.putOp [1] [2]]).2 rfl).2.2.2 [1]]
    decide
  · exact ((C5_batch_atomicity false [([3], [4])] [BatchOp.delOp [3]]).1 rfl).2.1
  · rw [((C5_batch_atomicity false [([3], [4])] [BatchOp.delOp [3]]).1 rfl).2.2.2 [3]]
    decide

/-! ### Claim C6 -/

/-- Claim C6: size validation — for every scalar width, decoding a stored
value whose length is not exactly the scalar's size reports a value error
carrying the requesting key and the expected-versus-actual sizes and
returns only the caller default (or 0 for the iterator getters), never a
truncated or padded decode; likewise a fixed-array value whose length is
not a multiple of the element size, and a text value whose length is odd. -/
theorem C6_size_validation :
    (∀ (w : Nat) (key value : List Nat) (dflt : Nat), value.length ≠ w →
      dbParse w key value dflt = (some ⟨key, .sizeEq w, value.length⟩, dflt)) ∧
    (∀ (w : Nat) (key value : List Nat), value.length ≠ w →
      dbAsScalar w key value = (some ⟨key, .sizeEq w, value.length⟩, 0)) ∧
    (∀ (w : Nat) (key value : List Nat), value.length % w ≠ 0 →
      dbParseArray w key value = (some ⟨key, .sizeMod w, value.length⟩, none)) ∧
    (∀ (key value : List Nat) (dflt : Option (List Nat)), value.length % 2 ≠ 0 →
      dbParseString key value dflt = (some ⟨key, .sizeMod 2, value.length⟩, dflt)) := by
  refine ⟨?_, ?_, ?_, ?_⟩ <;> intros <;>
    simp [dbParse, dbAsScalar, dbParseArray, dbParseString, *]

/-- Claim C6 (witness): a 3-byte value decoded as a 4-byte scalar and as
an 8-byte-element array both report the key and the size mismatch and
yield no decoded value. -/
theorem C6_size_validation_witness :
    dbParse 4 [9] [1, 2, 3] 7 = (some ⟨[9], .sizeEq 4, 3⟩, 7) ∧
    dbParseArray 8 [9] [1, 2, 3] = (some ⟨[9], .sizeMod 8, 3⟩, none) :=
  ⟨C6_size_validation.1 4 [9] [1, 2, 3] 7 (by decide),
   C6_size_validation.2.2.1 8 [9] [1, 2, 3] (by decide)⟩

/-! ### Claim C8 -/

/-- Claim C8: every single-prefix operation — size-by-prefix, find-all,
find-by-value, iterator open, remove-by-prefix — rejects the empty prefix
as an argument error before any engine call is made (no iterator is
created, `engineTouched` is false), stages nothing, changes no state, and
returns its error value. -/
theorem C8_empty_pfx_rejected (st : Store) (target : Val) (batchGiven writeOk : Bool) :
    dbGetSizeByPfx st [] = ⟨-1, true, false⟩ ∧
    dbFindAll st [] = ⟨none, true, false⟩ ∧
    dbFindByValue st [] target = ⟨none, true, false⟩ ∧
    dbFind st [] = ⟨false, true, false⟩ ∧
    (dbRemoveByPfx st batchGiven writeOk []).argErr = true ∧
    (dbRemoveByPfx st batchGiven writeOk []).engineTouched = false ∧
    (dbRemoveByPfx st batchGiven writeOk []).store' = st ∧
    (dbRemoveByPfx st batchGiven writeOk []).staged = [] ∧
    (dbRemoveByPfx st batchGiven writeOk []).res = -1 :=
  ⟨rfl, rfl, rfl, rfl, rfl, rfl, rfl, rfl, rfl⟩

/-! ### Claim C9 -/

theorem filter_idem {α : Type} (f : α → Bool) (l : List α) :
    (l.filter f).filter f = l.filter f := by
  induction l with
  | nil => rfl
  | cons a l ih =>
    by_cases h : f a = true
    · simp [List.filter_cons, h, ih]
    · simp [List.filter_cons, h, ih]

theorem filter_nonempty_eq_nil (l : List Key) :
    l.filter (fun p => !p.isEmpty) = [] ↔ ∀ p ∈ l, p = [] := by
  induction l with
  | nil => simp
  | cons a l ih =>
    by_cases h : a = []
    · simp [List.filter_cons, h, ih]
    · simp [List.filter_cons, h, List.isEmpty_iff]

/-- Claim C9: multi-prefix removal raises an argument error exactly when
the input prefix array has length zero or every element is the empty
string; otherwise empty elements are silently dropped before sorting and
scanning — running the operation on the input is the same as running it on
the input with its empty elements removed. -/
theorem C9_empty_elements (st : Store) (batchGiven writeOk : Bool) (pfxs : List Key) :
    ((dbRemoveByAnyPfx st batchGiven writeOk pfxs).argErr = true ↔
      (pfxs = [] ∨ ∀ p ∈ pfxs, p = [])) ∧
    (pfxs ≠ [] → pfxs.filter (fun p => !p.isEmpty) ≠ [] →
      dbRemoveByAnyPfx st batchGiven writeOk pfxs =
        dbRemoveByAnyPfx st batchGiven writeOk (pfxs.filter (fun p => !p.isEmpty))) := by
  constructor
  · by_cases h1 : pfxs = []
    · subst h1
      exact iff_of_true rfl (Or.inl rfl)
    · have h1' : ¬ pfxs.length = 0 := by
        simpa [List.length_eq_zero] using h1
      by_cases h2 : pfxs.filter (fun p => !p.isEmpty) = []
      · have h2e : (pfxs.filter (fun p => !p.isEmpty)).isEmpty = true := by
          simp [List.isEmpty_iff, h2]
        refine iff_of_true ?_ (Or.inr ((filter_nonempty_eq_nil pfxs).mp h2))
        simp [dbRemoveByAnyPfx, h1', h2e]
      · have h2e : ¬ (pfxs.filter (fun p => !p.isEmpty)).isEmpty = true := by
          simp [List.isEmpty_iff, h2]
        refine iff_of_false ?_ ?_
        · simp only [dbRemoveByAnyPfx, if_neg h1', if_neg h2e]
          split
          · simp
          · split
            · simp
            · simp
        · rintro (h | h)
          · exact h1 h
          · exact h2 ((filter_nonempty_eq_nil pfxs).mpr h)
  · intro hne hfne
    have h1' : ¬ pfxs.length = 0 := by
      simpa [List.length_eq_zero] using hne
    have h1f : ¬ (pfxs.filter (fun p => !p.isEmpty)).length = 0 := by
      simpa [List.length_eq_zero] using hfne
    have h2e : ¬ (pfxs.filter (fun p => !p.isEmpty)).isEmpty = true := by
      simp [List.isEmpty_iff, hfne]
    have h2f : ¬ ((pfxs.filter (fun p => !p.isEmpty)).filter
        (fun p => !p.isEmpty)).isEmpty = true := by
      rw [filter_idem]
      exact h2e
    simp only [dbRemoveByAnyPfx, if_neg h1', if_neg h1f, if_neg h2e, if_neg h2f,
      filter_idem]

/-- Claim C9 (witness): dropping the empty element of `["a", ""]` does not
change the operation's result, and an all-empty array `["", ""]` is an
argument error. -/
theorem C9_empty_elements_witness :
    dbRemoveByAnyPfx [] false false [[97], []] =
      dbRemoveByAnyPfx [] false false [[97]] ∧
    (dbRemoveByAnyPfx [] false false [[], []]).argErr = true := by
  constructor
  · exact (C9_empty_elements [] false false [[97], []]).2 (by decide) (by decide)
  · exact ((C9_empty_elements [] false false [[], []]).1).mpr (Or.inr (by decide))

/-! ### Claim C10 -/

/-- Claim C10: the combined int-or-long getter — an absent key returns the
caller default, throwing the not-found exception exactly when
`throwIfError` is set; a stored 4-byte value is returned as its int32
sign-extended to 64 bits; a stored 8-byte value is returned as its int64;
any other stored size reports a value error (naming the key and the
`!= sizeof(jlong)` mismatch) and returns the caller default. -/
theorem C10_int_or_long (st : Store) (k : Key) (dflt : Int) (thr : Bool) :
    (dbGet? st k = none →
      dbGetIntOrLong st k dflt thr = ⟨dflt, none, thr, false⟩) ∧
    (∀ v, dbGet? st k = some v → v.length = 4 →
      dbGetIntOrLong st k dflt thr = ⟨signedOfBytes 4 v, none, false, false⟩) ∧
    (∀ v, dbGet? st k = some v → v.length = 8 →
      dbGetIntOrLong st k dflt thr = ⟨signedOfBytes 8 v, none, false, false⟩) ∧
    (∀ v, dbGet? st k = some v → v.length ≠ 4 → v.length ≠ 8 →
      dbGetIntOrLong st k dflt thr =
        ⟨dflt, some ⟨k, .sizeEq 8, v.length⟩, false, false⟩) := by
  refine ⟨?_, ?_, ?_, ?_⟩
  · intro h
    simp [dbGetIntOrLong, h]
  · intro v h h4
    simp [dbGetIntOrLong, h, h4]
  · intro v h h8
    simp [dbGetIntOrLong, h, h8]
  · intro v h h4 h8
    simp [dbGetIntOrLong, h, h4, h8]

/-- Claim C10 (witness): a stored 4-byte `0xFFFFFFFF` reads back as the
sign-extended `-1`, and an absent key returns the default and throws the
not-found exception when `throwIfError` is set. -/
theorem C10_int_or_long_witness :
    dbGetIntOrLong [([5], [255, 255, 255, 255])] [5] 7 false =
      ⟨-1, none, false, false⟩ ∧
    dbGetIntOrLong [] [5] 7 true = ⟨7, none, true, false⟩ := by
  constructor
  · rw [(C10_int_or_long [([5], [255, 255, 255, 255])] [5] 7 false).2.1
      [255, 255, 255, 255] (by decide) (by decide)]
    decide
  · exact (C10_int_or_long [] [5] 7 true).1 rfl

end LevelDBJni
